import Mathlib

/-!
Verification of the regex-driven extraction/injection core of
GalTransl_DumpInjector, shallowly embedded in Lean.

Python values of type `str | None` are modelled as `Option String`.
Python insertion-ordered `dict`s are modelled as association lists
(`List (key × value)`) whose update keeps the position of an existing key.
-/

namespace GalDump

/-- Python `d.get(k)` / `d[k]` on an insertion-ordered dict modelled as an
association list (keys unique by construction of the update operations). -/
def alget {α β : Type} [DecidableEq α] : List (α × β) → α → Option β
  | [], _ => none
  | p :: rest, k => if p.1 = k then some p.2 else alget rest k

/-- Python `d[k] = v`: overwrite in place when the key exists (keeping its
insertion position), otherwise append at the end. -/
def alset {α β : Type} [DecidableEq α] (d : List (α × β)) (k : α) (v : β) :
    List (α × β) :=
  if (alget d k).isSome then
    d.map (fun p => if p.1 = k then (k, v) else p)
  else
    d ++ [(k, v)]

/-- Python `if k not in d: d[k] = v`. -/
def alsetIfAbsent {α β : Type} [DecidableEq α] (d : List (α × β)) (k : α) (v : β) :
    List (α × β) :=
  if (alget d k).isSome then d else d ++ [(k, v)]

/-- Python truthiness of a `str | None` value: `None` and `""` are falsy;
returns the string when it is truthy. -/
def truthyStr : Option String → Option String
  | some s => if s = "" then none else some s
  | none => none

/-! ## `src/models/translation_data.py` -/

/-- `TranslationEntry`: one record.  `message` is `Option String` because a
message-pattern match whose group 1 did not participate stores Python `None`
(and JSON `null` round-trips it). -/
structure TranslationEntry where
  message : Option String
  name : Option String
deriving DecidableEq

/-- `TranslationData`: ordered container of entries for one script file. -/
structure TranslationData where
  entries : List TranslationEntry
deriving DecidableEq

/-- `TranslationData.add_entry`. -/
def TranslationData.add_entry (td : TranslationData) (message name : Option String) :
    TranslationData :=
  ⟨td.entries ++ [⟨message, name⟩]⟩

/-- A serialized JSON object: key ↦ (string or `null`) in key-insertion order. -/
def JObj : Type := List (String × Option String)

/-- `TranslationEntry.to_dict`: `{"message": m}` plus a `"name"` key only when
the name is not `None`. -/
def TranslationEntry.to_dict (e : TranslationEntry) : JObj :=
  ("message", e.message) ::
    (match e.name with
     | some n => [("name", some n)]
     | none => [])

/-- `TranslationEntry.from_dict`: `data["message"]` (`KeyError`, i.e. `none`,
when the key is absent) and `data.get("name")` (absent key and `null` value
both give `None`). -/
def TranslationEntry.from_dict (d : JObj) : Option TranslationEntry :=
  (alget d "message").map (fun m => ⟨m, (alget d "name").join⟩)

/-- `TranslationData.to_json_list`. -/
def TranslationData.to_json_list (td : TranslationData) : List JObj :=
  td.entries.map TranslationEntry.to_dict

/-- Deserialize each object in order, failing when any object fails. -/
def fromJObjList : List JObj → Option (List TranslationEntry)
  | [] => some []
  | d :: rest => do
      let e ← TranslationEntry.from_dict d
      let es ← fromJObjList rest
      pure (e :: es)

/-- `TranslationData.from_json_list` (`none` when some item lacks `"message"`). -/
def TranslationData.from_json_list (l : List JObj) : Option TranslationData :=
  (fromJObjList l).map TranslationData.mk

/-- The store of JSON files: path ↦ the JSON array held by the file.
`json.dump`/`json.load` faithfully persist the array of objects. -/
def JsonFS : Type := String → Option (List JObj)

/-- `TranslationData.save_to_file`. -/
def TranslationData.save_to_file (td : TranslationData) (path : String)
    (fs : JsonFS) : JsonFS :=
  fun p => if p = path then some td.to_json_list else fs p

/-- `TranslationData.load_from_file`. -/
def TranslationData.load_from_file (path : String) (fs : JsonFS) :
    Option TranslationData :=
  (fs path).bind TranslationData.from_json_list

theorem from_dict_to_dict (e : TranslationEntry) :
    TranslationEntry.from_dict e.to_dict = some e := by
  cases e with
  | mk m n => cases n <;> rfl

theorem from_json_to_json (td : TranslationData) :
    TranslationData.from_json_list td.to_json_list = some td := by
  cases td with
  | mk es =>
    have h : fromJObjList (es.map TranslationEntry.to_dict) = some es := by
      induction es with
      | nil => rfl
      | cons e rest ih =>
        simp [fromJObjList, from_dict_to_dict, ih]
    simp [TranslationData.from_json_list, TranslationData.to_json_list, h]

/-- C2: saving a TranslationSet to a JSON file and loading it back yields an
equal TranslationSet (order and each message preserved), and an entry with an
absent name serializes to an object with no `"name"` key at all. -/
theorem save_load_roundtrip (td : TranslationData) (path : String) (fs : JsonFS) :
    TranslationData.load_from_file path (td.save_to_file path fs) = some td
    ∧ (∀ m : Option String,
        alget (TranslationEntry.to_dict ⟨m, none⟩) "name" = none) := by
  constructor
  · simp [TranslationData.load_from_file, TranslationData.save_to_file,
      from_json_to_json]
  · intro m
    rfl

/-! ## `src/utils/encoding_utils.py`, class `SJISExtUtils` -/

/-- `SJISExtUtils.write_sjis_ext_bin`: one little-endian 16-bit unit per
character (characters as code points); `struct.pack("<H", n)` raises for
`n > 0xFFFF`, modelled as `.error`. -/
def write_sjis_ext_bin : List Nat → Except Unit (List Nat)
  | [] => .ok []
  | c :: rest =>
    if c ≤ 0xFFFF then
      (write_sjis_ext_bin rest).map (fun bs => c % 256 :: c / 256 :: bs)
    else
      .error ()

/-- `SJISExtUtils.read_sjis_ext_bin`: pairs of bytes as little-endian 16-bit
code units; a trailing odd byte is dropped (`if i + 1 < len(data)`). -/
def read_sjis_ext_bin : List Nat → List Nat
  | [] => []
  | [_] => []
  | b0 :: b1 :: rest => (b0 + 256 * b1) :: read_sjis_ext_bin rest

/-- C7: for strings of code points ≤ 0xFFFF, read after write is the identity;
for `"あ"` (U+3042) the written file is exactly the bytes `0x42 0x30`; on read
a trailing odd byte is silently dropped. -/
theorem sjis_ext_bin_roundtrip :
    (∀ s : List Nat, (∀ c ∈ s, c ≤ 0xFFFF) →
      ∃ bs, write_sjis_ext_bin s = .ok bs ∧ read_sjis_ext_bin bs = s)
    ∧ write_sjis_ext_bin [0x3042] = .ok [0x42, 0x30]
    ∧ (∀ bs b, 2 ∣ bs.length →
        read_sjis_ext_bin (bs ++ [b]) = read_sjis_ext_bin bs) := by
  refine ⟨?_, by rfl, ?_⟩
  · intro s hs
    induction s with
    | nil => exact ⟨[], rfl, rfl⟩
    | cons c rest ih =>
      obtain ⟨bs, hw, hr⟩ := ih (fun x hx => hs x (List.mem_cons_of_mem _ hx))
      refine ⟨c % 256 :: c / 256 :: bs, ?_, ?_⟩
      · simp [write_sjis_ext_bin, hs c (List.mem_cons_self c rest), hw,
          Except.map]
      · simp [read_sjis_ext_bin, hr, Nat.mod_add_div]
  · intro bs b hdvd
    induction bs using read_sjis_ext_bin.induct with
    | case1 => rfl
    | case2 x =>
      simp at hdvd
    | case3 b0 b1 rest ih =>
      have : 2 ∣ rest.length := by
        simpa [Nat.add_mod] using hdvd
      simp [read_sjis_ext_bin, ih this]

/-- Witness for C7 at concrete inputs. -/
theorem sjis_ext_bin_roundtrip_witness :
    (∃ bs, write_sjis_ext_bin [0x3042, 0x41] = .ok bs
        ∧ read_sjis_ext_bin bs = [0x3042, 0x41])
    ∧ read_sjis_ext_bin ([0x42, 0x30] ++ [0x99]) = read_sjis_ext_bin [0x42, 0x30] :=
  ⟨sjis_ext_bin_roundtrip.1 [0x3042, 0x41] (by decide),
   sjis_ext_bin_roundtrip.2.2 [0x42, 0x30] 0x99 (by decide)⟩

/-! ## `TranslationMapping` (`src/models/translation_data.py`) -/

/-- `a` if it is `some`, else `b` (the fallback shape of ordered-dict lookups). -/
def oalt {α : Type} : Option α → Option α → Option α
  | some x, _ => some x
  | none, b => b

/-- `TranslationMapping`: the message→message dict (keys and values are
Python `str | None`) and the name→name dict (only truthy strings are ever
inserted). -/
structure TranslationMapping where
  message_dict : List (Option String × Option String)
  name_dict : List (String × String)
deriving DecidableEq

/-- A fresh (or `clear`ed) mapping. -/
def TranslationMapping.empty : TranslationMapping := ⟨[], []⟩

/-- One iteration of the `zip` loop in `TranslationMapping.add_mapping`:
`self.message_dict[jp.message] = cn.message`, and
`if jp.name and cn.name: if jp.name not in self.name_dict: ...`. -/
def addMappingPair (M : TranslationMapping) (jpE cnE : TranslationEntry) :
    TranslationMapping :=
  { message_dict := alset M.message_dict jpE.message cnE.message
    name_dict :=
      match truthyStr jpE.name, truthyStr cnE.name with
      | some jn, some cnm => alsetIfAbsent M.name_dict jn cnm
      | _, _ => M.name_dict }

/-- The whole `zip` loop of `add_mapping`. -/
def addMappingLoop (M : TranslationMapping) :
    List (TranslationEntry × TranslationEntry) → TranslationMapping
  | [] => M
  | p :: rest => addMappingLoop (addMappingPair M p.1 p.2) rest

/-- `TranslationMapping.add_mapping`: `ValueError` when the lengths differ
(raised before any insertion), else merge all aligned pairs. -/
def TranslationMapping.add_mapping (M : TranslationMapping)
    (jp cn : TranslationData) : Except Unit TranslationMapping :=
  if jp.entries.length ≠ cn.entries.length then .error ()
  else .ok (addMappingLoop M (jp.entries.zip cn.entries))

/-- `TranslationMapping.get_message_translation` (`dict.get`). -/
def TranslationMapping.get_message_translation (M : TranslationMapping)
    (k : Option String) : Option (Option String) :=
  alget M.message_dict k

/-- `TranslationMapping.get_name_translation`: the name dict has string keys,
so `get(None)` finds nothing. -/
def TranslationMapping.get_name_translation (M : TranslationMapping)
    (k : Option String) : Option String :=
  k.bind (fun s => alget M.name_dict s)

theorem oalt_some {α : Type} (x : α) (b : Option α) : oalt (some x) b = some x :=
  rfl

theorem oalt_none {α : Type} (b : Option α) : oalt none b = b := rfl

theorem oalt_none_right {α : Type} (a : Option α) : oalt a none = a := by
  cases a <;> rfl

theorem alget_append {α β : Type} [DecidableEq α] (d e : List (α × β)) (k : α) :
    alget (d ++ e) k = oalt (alget d k) (alget e k) := by
  induction d with
  | nil => simp [alget, oalt_none]
  | cons p rest ih =>
    by_cases h : p.1 = k <;> simp [alget, h, oalt_some, ih]

theorem alget_map_set {α β : Type} [DecidableEq α] (d : List (α × β)) (k k' : α)
    (v : β) :
    alget (d.map (fun p => if p.1 = k then (k, v) else p)) k'
      = if k' = k then (alget d k).map (fun _ => v) else alget d k' := by
  induction d with
  | nil => simp [alget]
  | cons p rest ih =>
    simp only [List.map_cons]
    by_cases h1 : p.1 = k
    · rw [if_pos h1]
      by_cases h2 : k' = k
      · subst h2
        simp [alget, h1, ih]
      · have h3 : ¬ p.1 = k' := fun hh => h2 (hh.symm.trans h1)
        have h2' : ¬ k = k' := fun hh => h2 hh.symm
        simp [alget, h2, h2', h3, ih]
    · rw [if_neg h1]
      by_cases h3 : p.1 = k'
      · have h2 : ¬ k' = k := fun hh => h1 (h3.trans hh)
        simp [alget, h2, h3]
      · simp [alget, h1, h3, ih]

theorem alget_alset {α β : Type} [DecidableEq α] (d : List (α × β)) (k k' : α)
    (v : β) :
    alget (alset d k v) k' = if k' = k then some v else alget d k' := by
  by_cases hk : (alget d k).isSome
  · obtain ⟨w, hw⟩ := Option.isSome_iff_exists.mp hk
    rw [alset, if_pos hk, alget_map_set, hw]
    by_cases h2 : k' = k <;> simp [h2]
  · have hnone : alget d k = none := Option.not_isSome_iff_eq_none.mp hk
    rw [alset, if_neg hk, alget_append]
    by_cases h2 : k' = k
    · subst h2
      simp [hnone, alget, oalt_none]
    · have h2' : ¬ k = k' := fun hh => h2 hh.symm
      simp [alget, h2, h2', oalt_none_right]

theorem alget_alsetIfAbsent {α β : Type} [DecidableEq α] (d : List (α × β))
    (k k' : α) (v : β) :
    alget (alsetIfAbsent d k v) k'
      = if k' = k then oalt (alget d k) (some v) else alget d k' := by
  by_cases hk : (alget d k).isSome
  · obtain ⟨w, hw⟩ := Option.isSome_iff_exists.mp hk
    rw [alsetIfAbsent, if_pos hk]
    by_cases h2 : k' = k
    · subst h2; simp [hw, oalt_some]
    · simp [h2]
  · have hnone : alget d k = none := Option.not_isSome_iff_eq_none.mp hk
    rw [alsetIfAbsent, if_neg hk, alget_append]
    by_cases h2 : k' = k
    · subst h2
      simp [hnone, alget, oalt_none]
    · have h2' : ¬ k = k' := fun hh => h2 hh.symm
      simp [alget, h2, h2', oalt_none_right]

/-- Value of every message key after the `zip` loop: the latest aligned pair
wins, falling back to the pre-existing dict. -/
def lastMessageFor : List (TranslationEntry × TranslationEntry) →
    Option String → Option (Option String)
  | [], _ => none
  | p :: rest, k =>
    oalt (lastMessageFor rest k)
      (if p.1.message = k then some p.2.message else none)

/-- Value of every name key after the `zip` loop: the earliest aligned pair
with both names truthy wins. -/
def firstNameFor : List (TranslationEntry × TranslationEntry) → String →
    Option String
  | [], _ => none
  | p :: rest, k =>
    match truthyStr p.1.name, truthyStr p.2.name with
    | some jn, some cnm => if jn = k then some cnm else firstNameFor rest k
    | _, _ => firstNameFor rest k

theorem oalt_assoc {α : Type} (a b c : Option α) :
    oalt (oalt a b) c = oalt a (oalt b c) := by
  cases a <;> cases b <;> rfl

theorem msgdict_pair (M : TranslationMapping) (jpE cnE : TranslationEntry)
    (k : Option String) :
    alget (addMappingPair M jpE cnE).message_dict k
      = oalt (if jpE.message = k then some cnE.message else none)
          (alget M.message_dict k) := by
  simp only [addMappingPair]
  rw [alget_alset]
  by_cases h : jpE.message = k
  · rw [if_pos h.symm, if_pos h, oalt_some]
  · rw [if_neg (fun hh => h hh.symm), if_neg h, oalt_none]

theorem msgdict_loop (pairs : List (TranslationEntry × TranslationEntry))
    (M : TranslationMapping) (k : Option String) :
    alget (addMappingLoop M pairs).message_dict k
      = oalt (lastMessageFor pairs k) (alget M.message_dict k) := by
  induction pairs generalizing M with
  | nil => simp [addMappingLoop, lastMessageFor, oalt_none]
  | cons p rest ih =>
    rw [addMappingLoop, ih, msgdict_pair]
    show _ = oalt (oalt (lastMessageFor rest k) _) _
    rw [oalt_assoc]

theorem namedict_loop (pairs : List (TranslationEntry × TranslationEntry))
    (M : TranslationMapping) (k : String) :
    alget (addMappingLoop M pairs).name_dict k
      = oalt (alget M.name_dict k) (firstNameFor pairs k) := by
  induction pairs generalizing M with
  | nil => simp [addMappingLoop, firstNameFor, oalt_none_right]
  | cons p rest ih =>
    rw [addMappingLoop, ih]
    show _ = oalt _ (firstNameFor (p :: rest) k)
    cases hj : truthyStr p.1.name with
    | none => simp only [addMappingPair, hj, firstNameFor]
    | some jn =>
      cases hc : truthyStr p.2.name with
      | none => simp only [addMappingPair, hj, hc, firstNameFor]
      | some cnm =>
        simp only [addMappingPair, hj, hc, firstNameFor]
        rw [alget_alsetIfAbsent]
        by_cases h2 : jn = k
        · rw [if_pos h2.symm, if_pos h2, h2, oalt_assoc, oalt_some]
        · rw [if_neg (fun hh => h2 hh.symm), if_neg h2]

/-- C5 counterexample: a later file's pair with the same source name does NOT
overwrite the earlier one.  File 1 maps message `"m"`→`"c1"` and name
`"N"`→`"X"`; file 2 maps `"m"`→`"c2"` and `"N"`→`"Y"`.  After both merges the
message dict holds the later `"c2"` (last-write-wins), but the name dict still
answers `"X"`, not the `"Y"` the claim predicts: `add_mapping` only inserts a
name when the key is absent (first-write-wins). -/
theorem name_dict_overwrite_counterexample :
    (match (TranslationMapping.empty.add_mapping
              ⟨[⟨some "m", some "N"⟩]⟩ ⟨[⟨some "c1", some "X"⟩]⟩).bind
            (fun M => M.add_mapping
              ⟨[⟨some "m", some "N"⟩]⟩ ⟨[⟨some "c2", some "Y"⟩]⟩) with
      | .ok M => some (M.get_message_translation (some "m"),
                       M.get_name_translation (some "N"))
      | .error _ => none)
      = some (some (some "c2"), some "X")
    ∧ some "X" ≠ some "Y" := by
  constructor
  · rfl
  · simp

/-- C5 amended: both dictionaries are keyed by the source-language string with
unique keys; on duplicate source keys the message dictionary is
last-write-wins (a later pair, or a later file, overwrites), while the name
dictionary is first-write-wins (an existing key is never overwritten). -/
theorem mapping_overwrite_semantics (M : TranslationMapping)
    (jp cn : TranslationData) (h : jp.entries.length = cn.entries.length) :
    ∃ M', M.add_mapping jp cn = .ok M'
      ∧ (∀ k, M'.get_message_translation k
            = oalt (lastMessageFor (jp.entries.zip cn.entries) k)
                (M.get_message_translation k))
      ∧ (∀ k, M'.get_name_translation (some k)
            = oalt (M.get_name_translation (some k))
                (firstNameFor (jp.entries.zip cn.entries) k)) := by
  refine ⟨addMappingLoop M (jp.entries.zip cn.entries), ?_, ?_, ?_⟩
  · simp [TranslationMapping.add_mapping, h]
  · intro k
    simpa [TranslationMapping.get_message_translation] using
      msgdict_loop (jp.entries.zip cn.entries) M k
  · intro k
    simpa [TranslationMapping.get_name_translation] using
      namedict_loop (jp.entries.zip cn.entries) M k

/-- Witness for the amended C5 at a concrete input. -/
theorem mapping_overwrite_semantics_witness :
    ∃ M', TranslationMapping.empty.add_mapping
        ⟨[⟨some "m", some "N"⟩, ⟨some "m", some "N"⟩]⟩
        ⟨[⟨some "c1", some "X"⟩, ⟨some "c2", some "Y"⟩]⟩ = .ok M'
      ∧ (∀ k, M'.get_message_translation k
            = oalt (lastMessageFor
                ([⟨some "m", some "N"⟩, ⟨some "m", some "N"⟩].zip
                  [⟨some "c1", some "X"⟩, ⟨some "c2", some "Y"⟩]) k)
                (TranslationMapping.empty.get_message_translation k))
      ∧ (∀ k, M'.get_name_translation (some k)
            = oalt (TranslationMapping.empty.get_name_translation (some k))
                (firstNameFor
                  ([⟨some "m", some "N"⟩, ⟨some "m", some "N"⟩].zip
                    [⟨some "c1", some "X"⟩, ⟨some "c2", some "Y"⟩]) k)) :=
  mapping_overwrite_semantics TranslationMapping.empty
    ⟨[⟨some "m", some "N"⟩, ⟨some "m", some "N"⟩]⟩
    ⟨[⟨some "c1", some "X"⟩, ⟨some "c2", some "Y"⟩]⟩ (by decide)

/-! ## Python `str.replace` and `re.Pattern.sub`
(`regex_processor.py`, `_replace_message` / `_replace_name`) -/

theorem str_data_append (s t : String) : (s ++ t).data = s.data ++ t.data := by
  cases s; cases t; rfl

/-- The left-to-right scan of Python `str.replace(old, new)` for a non-empty
`old`: replace every non-overlapping occurrence.  Fuel-indexed so that the
definition is structural; any `fuel ≥ s.length` gives the same result. -/
def pyReplaceGo (old new : List Char) : Nat → List Char → List Char
  | _, [] => []
  | 0, s => s
  | fuel + 1, c :: rest =>
    if old ≠ [] ∧ old.isPrefixOf (c :: rest) then
      new ++ pyReplaceGo old new fuel ((c :: rest).drop old.length)
    else
      c :: pyReplaceGo old new fuel rest

/-- Scan with exactly enough fuel. -/
def pyReplaceChars (old new s : List Char) : List Char :=
  pyReplaceGo old new s.length s

/-- Python `s.replace(old, new)`: all occurrences; an empty `old` inserts
`new` before every character and once at the end. -/
def pyStrReplace (s old new : String) : String :=
  if old.data = [] then
    ⟨new.data ++ s.data.flatMap (fun c => c :: new.data)⟩
  else
    ⟨pyReplaceChars old.data new.data s.data⟩

theorem pyReplaceGo_fuel (old new : List Char) :
    ∀ f₁ f₂ s, s.length ≤ f₁ → s.length ≤ f₂ →
      pyReplaceGo old new f₁ s = pyReplaceGo old new f₂ s := by
  intro f₁
  induction f₁ with
  | zero =>
    intro f₂ s h1 _
    have hs : s = [] := List.eq_nil_of_length_eq_zero (Nat.le_zero.mp h1)
    subst hs
    cases f₂ <;> rfl
  | succ f ih =>
    intro f₂ s h1 h2
    cases s with
    | nil => cases f₂ <;> rfl
    | cons c rest =>
      cases f₂ with
      | zero => simp at h2
      | succ f₂' =>
        rw [pyReplaceGo, pyReplaceGo]
        by_cases h : old ≠ [] ∧ old.isPrefixOf (c :: rest)
        · rw [if_pos h, if_pos h]
          congr 1
          have hop : 0 < old.length := List.length_pos.mpr h.1
          apply ih
          · simp only [List.length_drop, List.length_cons]
            simp only [List.length_cons] at h1
            omega
          · simp only [List.length_drop, List.length_cons]
            simp only [List.length_cons] at h2
            omega
        · rw [if_neg h, if_neg h]
          congr 1
          apply ih
          · simp only [List.length_cons] at h1; omega
          · simp only [List.length_cons] at h2; omega

theorem isPrefixOf_self_append (l t : List Char) : l.isPrefixOf (l ++ t) := by
  induction l with
  | nil => simp [List.isPrefixOf]
  | cons a as ih => simp [List.isPrefixOf, ih]

/-- Python truthiness of `dict.get` on a dict whose values are `str | None`:
truthy iff a non-`None`, non-empty value was found. -/
def truthy2 : Option (Option String) → Option String
  | some (some s) => if s = "" then none else some s
  | _ => none

theorem pyReplaceChars_step (old new tail : List Char) (h : old ≠ []) :
    pyReplaceChars old new (old ++ tail) = new ++ pyReplaceChars old new tail := by
  obtain ⟨a, as, rfl⟩ : ∃ a as, old = a :: as := by
    cases old with
    | nil => exact absurd rfl h
    | cons a as => exact ⟨a, as, rfl⟩
  show pyReplaceGo _ _ (a :: (as ++ tail)).length (a :: (as ++ tail)) = _
  simp only [List.length_cons]
  rw [pyReplaceGo,
    if_pos ⟨h, isPrefixOf_self_append (a :: as) tail⟩]
  congr 1
  have hdrop : (a :: (as ++ tail)).drop (a :: as).length = tail := by
    show ((a :: as) ++ tail).drop (a :: as).length = tail
    exact List.drop_left _ _
  rw [hdrop]
  exact pyReplaceGo_fuel _ _ _ _ _ (by simp) (le_refl _)

/-- The result of `match.group(1)` inside a substitution callback:
`none` models `IndexError` (the pattern has no group 1); `some none` models a
group 1 that did not participate (Python `None`); `some (some s)` is the
captured text. -/
structure SubMatch where
  group0 : String
  group1 : Option (Option String)
deriving DecidableEq

/-- `RegexProcessor._replace_message`: look the captured group-1 text up with
`get_message_translation`; a falsy `translated` (not found, found `None`, or
found `""`) returns `match.group()` unchanged; a truthy translation `t`
returns `match.group().replace(group1, t)`.  When group 1 exists but did not
participate and its `None` key has a truthy entry, `str.replace(None, t)`
raises `TypeError`, which the `except (IndexError, AttributeError)` clause
does not catch: modelled as `.error`. -/
def replace_message (M : TranslationMapping) (g0 : String)
    (g1 : Option (Option String)) : Except Unit String :=
  match g1 with
  | none => .ok g0
  | some k =>
    match truthy2 (M.get_message_translation k) with
    | none => .ok g0
    | some t =>
      match k with
      | some o => .ok (pyStrReplace g0 o t)
      | none => .error ()

/-- `RegexProcessor._replace_name` (the name dict holds string keys and
values, so no `TypeError` path exists). -/
def replace_name (M : TranslationMapping) (g0 : String)
    (g1 : Option (Option String)) : String :=
  match g1 with
  | none => g0
  | some k =>
    match truthyStr (M.get_name_translation k) with
    | none => g0
    | some t =>
      match k with
      | some o => pyStrReplace g0 o t
      | none => g0

/-- `re.Pattern.sub(f, content)` over the decomposition of `content` as
`pre ++ m₁.group0 ++ gap₁ ++ m₂.group0 ++ gap₂ ++ …` (the non-overlapping
matches in order with the unmatched text around them); an uncaught exception
in the callback aborts the whole substitution. -/
def pySub (f : SubMatch → Except Unit String) (pre : String) :
    List (SubMatch × String) → Except Unit String
  | [] => .ok pre
  | (m, gap) :: rest => do
    let r ← f m
    let tail ← pySub f gap rest
    pure (pre ++ r ++ tail)

/-- Reassembly of the decomposition with each match image given by `f`. -/
def joinMatches (f : SubMatch → String) (pre : String) :
    List (SubMatch × String) → String
  | [] => pre
  | (m, gap) :: rest => pre ++ f m ++ joinMatches f gap rest

/-- Per-match semantics of message substitution: a truthy translation `t` of
the captured text `o` maps the whole matched span through
`str.replace(o, t)`; anything else leaves the span unchanged. -/
def applyMessageMatch (M : TranslationMapping) (m : SubMatch) : String :=
  match m.group1 with
  | some (some o) =>
    match truthy2 (M.get_message_translation (some o)) with
    | some t => pyStrReplace m.group0 o t
    | none => m.group0
  | _ => m.group0

theorem replace_message_eq_apply (M : TranslationMapping) (m : SubMatch)
    (h : m.group1 ≠ some none) :
    replace_message M m.group0 m.group1 = .ok (applyMessageMatch M m) := by
  cases hg : m.group1 with
  | none => simp [replace_message, applyMessageMatch, hg]
  | some k =>
    cases k with
    | none => exact absurd hg h
    | some o =>
      cases ht : truthy2 (M.get_message_translation (some o)) <;>
        simp [replace_message, applyMessageMatch, hg, ht]

theorem pySub_replace_message (M : TranslationMapping) (pre : String)
    (ms : List (SubMatch × String))
    (h : ∀ p ∈ ms, p.1.group1 ≠ some none) :
    pySub (fun mm => replace_message M mm.group0 mm.group1) pre ms
      = .ok (joinMatches (applyMessageMatch M) pre ms) := by
  induction ms generalizing pre with
  | nil => rfl
  | cons p rest ih =>
    obtain ⟨m, gap⟩ := p
    have h1 : m.group1 ≠ some none := h (m, gap) (List.mem_cons_self _ _)
    have h2 : ∀ p ∈ rest, p.1.group1 ≠ some none :=
      fun q hq => h q (List.mem_cons_of_mem _ hq)
    rw [pySub, replace_message_eq_apply M m h1, joinMatches]
    simp [ih gap h2]
    rfl

/-- Follows the spec's words for comparison: replace only the FIRST
occurrence of `old` within the span. -/
def specReplaceFirstChars (old new : List Char) : List Char → List Char
  | [] => []
  | c :: rest =>
    if old ≠ [] ∧ old.isPrefixOf (c :: rest) then
      new ++ (c :: rest).drop old.length
    else
      c :: specReplaceFirstChars old new rest

/-- Follows the spec's words: the substitution C3 asserts, replacing only the
first occurrence of the captured substring within the matched span. -/
def specReplaceMessage (M : TranslationMapping) (g0 : String)
    (g1 : Option (Option String)) : String :=
  match g1 with
  | some (some o) =>
    match truthy2 (M.get_message_translation (some o)) with
    | some t => ⟨specReplaceFirstChars o.data t.data g0.data⟩
    | none => g0
  | _ => g0

/-- C3 counterexample: for a match like the one of pattern `(A)xA` on the span
`"AxA"` (captured group-1 text `"A"`, translation `"B"`), the code replaces
EVERY occurrence of the captured text in the matched span — the trailing
delimiter `A` is rewritten as well, giving `"BxB"` — while the claimed
first-occurrence-only behavior would preserve the delimiter and give
`"BxA"`. -/
theorem replace_message_counterexample :
    replace_message ⟨[(some "A", some "B")], []⟩ "AxA" (some (some "A"))
        = .ok "BxB"
    ∧ specReplaceMessage ⟨[(some "A", some "B")], []⟩ "AxA" (some (some "A"))
        = "BxA"
    ∧ ("BxB" : String) ≠ "BxA" := by
  refine ⟨rfl, rfl, by decide⟩

/-- C3 amended: during injection, for every message-pattern match whose
captured group-1 text has a truthy translation, EVERY occurrence of the
captured substring within the full matched span is replaced (Python
`str.replace` semantics — in particular a surrounding delimiter is preserved
only when it does not itself contain the captured substring); if the captured
text has no translation, the whole match is left unchanged. -/
theorem message_substitution_semantics (M : TranslationMapping) (pre : String)
    (ms : List (SubMatch × String))
    (h : ∀ p ∈ ms, p.1.group1 ≠ some none) :
    pySub (fun mm => replace_message M mm.group0 mm.group1) pre ms
        = .ok (joinMatches (applyMessageMatch M) pre ms)
    ∧ (∀ (m : SubMatch) (o : String), m.group1 = some (some o) →
        truthy2 (M.get_message_translation (some o)) = none →
        applyMessageMatch M m = m.group0)
    ∧ (∀ o t tail : String, o ≠ "" →
        pyStrReplace (o ++ tail) o t = t ++ pyStrReplace tail o t) := by
  refine ⟨pySub_replace_message M pre ms h, ?_, ?_⟩
  · intro m o hg ht
    simp [applyMessageMatch, hg, ht]
  · intro o t tail ho
    have hod : o.data ≠ [] := by
      intro hd
      exact ho (by cases o with | mk d => cases hd; rfl)
    rw [pyStrReplace, if_neg hod, pyStrReplace, if_neg hod]
    show String.mk _ = _
    have : (o ++ tail).data = o.data ++ tail.data := str_data_append o tail
    rw [this, pyReplaceChars_step _ _ _ hod]
    cases t with
    | mk td => rfl

/-- Witness for the amended C3 at a concrete input. -/
theorem message_substitution_semantics_witness :
    (pySub (fun mm => replace_message ⟨[(some "A", some "B")], []⟩
            mm.group0 mm.group1) "p"
          [(⟨"AxA", some (some "A")⟩, "q")]
        = .ok (joinMatches (applyMessageMatch ⟨[(some "A", some "B")], []⟩) "p"
          [(⟨"AxA", some (some "A")⟩, "q")]))
    ∧ (∀ (m : SubMatch) (o : String), m.group1 = some (some o) →
        truthy2 ((TranslationMapping.mk [(some "A", some "B")]
            []).get_message_translation (some o)) = none →
        applyMessageMatch ⟨[(some "A", some "B")], []⟩ m = m.group0)
    ∧ (∀ o t tail : String, o ≠ "" →
        pyStrReplace (o ++ tail) o t = t ++ pyStrReplace tail o t) :=
  message_substitution_semantics ⟨[(some "A", some "B")], []⟩ "p"
    [(⟨"AxA", some (some "A")⟩, "q")] (by decide)

/-- C10: a translation mapped to the empty string is treated exactly like a
missing translation, for both the message and the name callback: the matched
span is returned completely unchanged instead of having the captured text
deleted. -/
theorem empty_translation_left_unchanged (M : TranslationMapping) (g0 o : String)
    (hm : M.get_message_translation (some o) = some (some ""))
    (hn : M.get_name_translation (some o) = some "") :
    replace_message M g0 (some (some o)) = .ok g0
    ∧ replace_name M g0 (some (some o)) = g0
    ∧ (∀ (M' : TranslationMapping) (g : String) (o' : String),
        M'.get_message_translation (some o') = none →
        replace_message M' g (some (some o')) = .ok g)
    ∧ (∀ (M' : TranslationMapping) (g : String) (o' : String),
        M'.get_name_translation (some o') = none →
        replace_name M' g (some (some o')) = g) := by
  refine ⟨?_, ?_, ?_, ?_⟩
  · simp [replace_message, hm, truthy2]
  · simp [replace_name, hn, truthyStr]
  · intro M' g o' hno
    simp [replace_message, hno, truthy2]
  · intro M' g o' hno
    simp [replace_name, hno, truthyStr]

/-- Witness for C10 at a concrete mapping state. -/
theorem empty_translation_left_unchanged_witness :
    replace_message ⟨[(some "A", some "")], [("A", "")]⟩ "xAx"
        (some (some "A")) = .ok "xAx"
    ∧ replace_name ⟨[(some "A", some "")], [("A", "")]⟩ "xAx"
        (some (some "A")) = "xAx"
    ∧ (∀ (M' : TranslationMapping) (g : String) (o' : String),
        M'.get_message_translation (some o') = none →
        replace_message M' g (some (some o')) = .ok g)
    ∧ (∀ (M' : TranslationMapping) (g : String) (o' : String),
        M'.get_name_translation (some o') = none →
        replace_name M' g (some (some o')) = g) :=
  empty_translation_left_unchanged ⟨[(some "A", some "")], [("A", "")]⟩
    "xAx" "A" (by rfl) (by rfl)

/-! ## The injection run
(`RegexProcessor.inject_with_regex` and `_inject_to_single_file`, with
`name_pattern = None` and the SJIS pre-step disabled — a legal configuration;
C4 and C6 concern the loop structure, the mapping and the error policy). -/

/-- The inputs of one script file in an injection run: its name and content,
the source/target JSON counterparts when they exist, and the message-pattern
match decomposition of the content
(`content = pre ++ m₁.group0 ++ gap₁ ++ …`). -/
structure FileSpec where
  filename : String
  content : String
  jpJson : Option TranslationData
  cnJson : Option TranslationData
  pre : String
  msgMatches : List (SubMatch × String)
deriving DecidableEq

/-- Events observable during a run, for the ordering claim. -/
inductive RunEvent
  | addPair (filename : String)
  | substitute (filename : String)
deriving DecidableEq

/-- `RegexProcessor._inject_to_single_file`: when either JSON counterpart is
missing, copy the original content (no exception, zero replacements);
otherwise load the pair into the mapping (`add_mapping` raises `ValueError`
*before* any insertion when the lengths differ, leaving the mapping
unchanged) and then substitute the file's message matches under the mapping
as mutated so far.  Returns the mapping after the call, the written content
or the propagated exception, and the `addPair`/`substitute` events that
happened. -/
def injectSingleFile (M : TranslationMapping) (f : FileSpec) :
    TranslationMapping × Except Unit String × List RunEvent :=
  match f.jpJson, f.cnJson with
  | some jp, some cn =>
    match M.add_mapping jp cn with
    | .error _ => (M, .error (), [])
    | .ok M' =>
      match pySub (fun mm => replace_message M' mm.group0 mm.group1)
          f.pre f.msgMatches with
      | .ok out => (M', .ok out, [.addPair f.filename, .substitute f.filename])
      | .error e => (M', .error e, [.addPair f.filename])
  | _, _ => (M, .ok f.content, [])

/-- The state threaded through the file loop of `inject_with_regex`:
the (mutated-in-place) translation mapping, the files written to the output
folder in order, and `processed_files`. -/
structure RunState where
  mapping : TranslationMapping
  outputs : List (String × String)
  processed : Nat
deriving DecidableEq

/-- The `for filename, file_path in iterator` loop of `inject_with_regex`:
a per-file exception is caught, the original file is copied to the output
folder, and the loop continues (`processed_files` is not incremented). -/
def injectLoop : List FileSpec → RunState → RunState × List RunEvent
  | [], st => (st, [])
  | f :: rest, st =>
    match injectSingleFile st.mapping f with
    | (M', .ok out, evs) =>
      let next := injectLoop rest
        ⟨M', st.outputs ++ [(f.filename, out)], st.processed + 1⟩
      (next.1, evs ++ next.2)
    | (M', .error _, evs) =>
      let next := injectLoop rest
        ⟨M', st.outputs ++ [(f.filename, f.content)], st.processed⟩
      (next.1, evs ++ next.2)

/-- `inject_with_regex` after validation and pattern compilation: the mapping
is cleared, then the file loop runs; the run itself always returns a success
result. -/
def inject_with_regex (files : List FileSpec) : RunState × List RunEvent :=
  injectLoop files ⟨TranslationMapping.empty, [], 0⟩

/-- Checks that no `addPair` event happens after a `substitute` event —
the ordering discipline that C6 asserts. -/
def noAddAfterSub : List RunEvent → Bool
  | [] => true
  | .addPair _ :: rest => noAddAfterSub rest
  | .substitute _ :: rest =>
    rest.all (fun e => match e with
      | .addPair _ => false
      | _ => true)

/-- First test file for the ordering claims: its own pair is unrelated, its
content `"m1"` is one full-span match capturing `"m1"`. -/
def cexFile0 : FileSpec :=
  ⟨"f0", "m1", some ⟨[⟨some "a", none⟩]⟩, some ⟨[⟨some "b", none⟩]⟩,
    "", [(⟨"m1", some (some "m1")⟩, "")]⟩

/-- Second test file: same content, and its pair maps `"m1"` to `"T"`. -/
def cexFile1 : FileSpec :=
  ⟨"f1", "m1", some ⟨[⟨some "m1", none⟩]⟩, some ⟨[⟨some "T", none⟩]⟩,
    "", [(⟨"m1", some (some "m1")⟩, "")]⟩

/-- C6 counterexample: with two eligible files, the run's event trace is
`[addPair f0, substitute f0, addPair f1, substitute f1]` — file f0 is
substituted BEFORE file f1's pair is added, so the claimed
all-pairs-loaded-before-any-substitution ordering is violated
(`noAddAfterSub` is `false`).  The violation is observable: both files have
the same content `"m1"`, whose translation `"T"` is supplied by f1's pair,
yet f0 is written unchanged while f1 is written as `"T"`. -/
theorem mapping_before_substitution_counterexample :
    (inject_with_regex [cexFile0, cexFile1]).2
        = [.addPair "f0", .substitute "f0", .addPair "f1", .substitute "f1"]
    ∧ noAddAfterSub (inject_with_regex [cexFile0, cexFile1]).2 = false
    ∧ (inject_with_regex [cexFile0, cexFile1]).1.outputs
        = [("f0", "m1"), ("f1", "T")] := by
  refine ⟨rfl, rfl, rfl⟩

/-- The per-file well-formedness for the interleaving theorem: both JSON
counterparts exist, they have equal lengths, and every match's group 1
participates. -/
def fileOk (f : FileSpec) : Prop :=
  f.jpJson.isSome ∧ f.cnJson.isSome
  ∧ (f.jpJson.getD ⟨[]⟩).entries.length = (f.cnJson.getD ⟨[]⟩).entries.length
  ∧ ∀ p ∈ f.msgMatches, p.1.group1 ≠ some none

instance (f : FileSpec) : Decidable (fileOk f) := by
  unfold fileOk
  infer_instance

/-- The mapping after loading one file's pair. -/
def addFilePair (M : TranslationMapping) (f : FileSpec) : TranslationMapping :=
  addMappingLoop M
    ((f.jpJson.getD ⟨[]⟩).entries.zip (f.cnJson.getD ⟨[]⟩).entries)

/-- The mapping after loading the pairs of a list of files in order. -/
def loadAllPairs (M : TranslationMapping) : List FileSpec → TranslationMapping
  | [] => M
  | f :: rest => loadAllPairs (addFilePair M f) rest

/-- The written outputs when each file is substituted under the mapping as it
stands right after that file's own pair was added (pairs of earlier files
only). -/
def substOutputs (M : TranslationMapping) : List FileSpec → List (String × String)
  | [] => []
  | f :: rest =>
    (f.filename,
      joinMatches (applyMessageMatch (addFilePair M f)) f.pre f.msgMatches)
      :: substOutputs (addFilePair M f) rest

/-- The per-file interleaved event trace. -/
def interleavedTrace : List FileSpec → List RunEvent
  | [] => []
  | f :: rest =>
    .addPair f.filename :: .substitute f.filename :: interleavedTrace rest

/-- C6 amended: mapping building and substitution are interleaved per file,
in directory order: each file's source/target pair is added to the mapping
immediately before that file's own substitution, and the file is substituted
under the mapping accumulated from the pairs of the files up to and including
itself — pairs of later files are NOT yet loaded when an earlier file is
substituted. -/
theorem mapping_interleaving_semantics (files : List FileSpec)
    (h : ∀ f ∈ files, fileOk f) :
    ∀ st : RunState,
      (injectLoop files st).1.mapping = loadAllPairs st.mapping files
      ∧ (injectLoop files st).1.outputs
          = st.outputs ++ substOutputs st.mapping files
      ∧ (injectLoop files st).1.processed = st.processed + files.length
      ∧ (injectLoop files st).2 = interleavedTrace files := by
  induction files with
  | nil =>
    intro st
    simp [injectLoop, loadAllPairs, substOutputs, interleavedTrace]
  | cons f rest ih =>
    intro st
    obtain ⟨hjs, hcs, hlen, hms⟩ := h f (List.mem_cons_self _ _)
    obtain ⟨jp, hjp⟩ := Option.isSome_iff_exists.mp hjs
    obtain ⟨cn, hcn⟩ := Option.isSome_iff_exists.mp hcs
    have hrest : ∀ g ∈ rest, fileOk g := fun g hg => h g (List.mem_cons_of_mem _ hg)
    have hlen' : jp.entries.length = cn.entries.length := by
      simpa [hjp, hcn] using hlen
    have hadd : st.mapping.add_mapping jp cn
        = .ok (addMappingLoop st.mapping (jp.entries.zip cn.entries)) := by
      simp [TranslationMapping.add_mapping, hlen']
    have hsub := pySub_replace_message
      (addMappingLoop st.mapping (jp.entries.zip cn.entries)) f.pre f.msgMatches hms
    have hfp : addFilePair st.mapping f
        = addMappingLoop st.mapping (jp.entries.zip cn.entries) := by
      simp [addFilePair, hjp, hcn]
    have hstep : injectLoop (f :: rest) st
        = ((injectLoop rest
            ⟨addFilePair st.mapping f,
             st.outputs ++ [(f.filename,
               joinMatches (applyMessageMatch (addFilePair st.mapping f))
                 f.pre f.msgMatches)],
             st.processed + 1⟩).1,
           .addPair f.filename :: .substitute f.filename ::
            (injectLoop rest
              ⟨addFilePair st.mapping f,
               st.outputs ++ [(f.filename,
                 joinMatches (applyMessageMatch (addFilePair st.mapping f))
                   f.pre f.msgMatches)],
               st.processed + 1⟩).2) := by
      rw [injectLoop, injectSingleFile, hjp, hcn, hfp]
      simp only [hadd, hsub, List.cons_append, List.nil_append]
    rw [hstep]
    obtain ⟨ih1, ih2, ih3, ih4⟩ := ih hrest
      ⟨addFilePair st.mapping f,
       st.outputs ++ [(f.filename,
         joinMatches (applyMessageMatch (addFilePair st.mapping f))
           f.pre f.msgMatches)],
       st.processed + 1⟩
    refine ⟨?_, ?_, ?_, ?_⟩
    · exact ih1
    · show (injectLoop rest _).1.outputs = _
      rw [ih2]
      show (st.outputs ++ [_]) ++ _ = _
      rw [List.append_assoc]
      rfl
    · show (injectLoop rest _).1.processed = _
      rw [ih3]
      show st.processed + 1 + rest.length = st.processed + (rest.length + 1)
      omega
    · show _ :: _ :: (injectLoop rest _).2 = _
      rw [ih4]
      rfl

/-- Witness for the amended C6 at a concrete two-file run. -/
theorem mapping_interleaving_semantics_witness :
    (injectLoop [cexFile0, cexFile1] ⟨TranslationMapping.empty, [], 0⟩).1.mapping
        = loadAllPairs TranslationMapping.empty [cexFile0, cexFile1]
    ∧ (injectLoop [cexFile0, cexFile1]
          ⟨TranslationMapping.empty, [], 0⟩).1.outputs
        = [] ++ substOutputs TranslationMapping.empty [cexFile0, cexFile1]
    ∧ (injectLoop [cexFile0, cexFile1]
          ⟨TranslationMapping.empty, [], 0⟩).1.processed = 0 + 2
    ∧ (injectLoop [cexFile0, cexFile1] ⟨TranslationMapping.empty, [], 0⟩).2
        = interleavedTrace [cexFile0, cexFile1] :=
  mapping_interleaving_semantics [cexFile0, cexFile1] (by decide)
    ⟨TranslationMapping.empty, [], 0⟩

/-- A mismatched pair for the C4 claims: one source entry, zero target
entries. -/
def cexMismatchFile : FileSpec :=
  ⟨"g0", "c0", some ⟨[⟨some "x", none⟩]⟩, some ⟨[]⟩, "", []⟩

/-- C4 counterexample: the mismatched pair does make `add_mapping` raise, but
within the injection run the error is caught by the per-file handler: the
mismatched file `g0` is copied unchanged, `processed_files` skips it, and the
run continues — the next file `f1` is still merged and substituted
(`"m1"` → `"T"`), so the error is NOT fatal to the mapping-build of the run. -/
theorem mismatch_not_fatal_counterexample :
    TranslationMapping.empty.add_mapping ⟨[⟨some "x", none⟩]⟩ ⟨[]⟩ = .error ()
    ∧ (inject_with_regex [cexMismatchFile, cexFile1]).1.outputs
        = [("g0", "c0"), ("f1", "T")]
    ∧ (inject_with_regex [cexMismatchFile, cexFile1]).1.processed = 1
    ∧ (inject_with_regex [cexMismatchFile, cexFile1]).2
        = [.addPair "f1", .substitute "f1"] := by
  refine ⟨rfl, rfl, rfl, rfl⟩

/-- C4 amended: feeding source and target TranslationSets of differing
lengths into `add_mapping` fails with the length-mismatch `ValueError` (for
any mapping state, before any insertion), but in the injection run this
exception is caught by the per-file handler: the file is copied to the
output folder unchanged, the mapping and `processed_files` are untouched,
and the run continues with the remaining files — a per-file skippable
failure, not a fatal one. -/
theorem mismatch_is_per_file_failure (jp cn : TranslationData)
    (hlen : jp.entries.length ≠ cn.entries.length) :
    (∀ M : TranslationMapping, M.add_mapping jp cn = .error ())
    ∧ (∀ (f : FileSpec) (rest : List FileSpec) (st : RunState),
        f.jpJson = some jp → f.cnJson = some cn →
        injectLoop (f :: rest) st
          = injectLoop rest
              { st with outputs := st.outputs ++ [(f.filename, f.content)] }) := by
  constructor
  · intro M
    simp [TranslationMapping.add_mapping, hlen]
  · intro f rest st hjp hcn
    have herr : st.mapping.add_mapping jp cn = .error () := by
      simp [TranslationMapping.add_mapping, hlen]
    rw [injectLoop, injectSingleFile, hjp, hcn]
    simp only [herr, List.nil_append]

/-- Witness for the amended C4 at a concrete input. -/
theorem mismatch_is_per_file_failure_witness :
    (∀ M : TranslationMapping,
        M.add_mapping ⟨[⟨some "x", none⟩]⟩ ⟨[]⟩ = .error ())
    ∧ (∀ (f : FileSpec) (rest : List FileSpec) (st : RunState),
        f.jpJson = some ⟨[⟨some "x", none⟩]⟩ → f.cnJson = some ⟨[]⟩ →
        injectLoop (f :: rest) st
          = injectLoop rest
              { st with outputs := st.outputs ++ [(f.filename, f.content)] }) :=
  mismatch_is_per_file_failure ⟨[⟨some "x", none⟩]⟩ ⟨[]⟩ (by decide)

/-! ## Extraction (`RegexProcessor._extract_from_single_file`) -/

/-- One `re.Match`: the full span `[start0, end0)`, the group-1 span as
Python reports it (`start(1)`/`end(1)` are `-1` when group 1 did not
participate) and the group-1 text (`none` when it did not participate). -/
structure PyMatch where
  start0 : Nat
  end0 : Nat
  start1 : Int
  end1 : Int
  group1 : Option String
deriving DecidableEq

/-- The `for message_match in message_matches` loop of
`_extract_from_single_file`.  `hasG1` says whether the message pattern
defines a group 1: when it does not, `match.group(1)` raises `IndexError`
for every match and the `except IndexError: continue` skips it without
touching `last_start`.  `nameSearch a b` models
`name_regex.search(content, a, b)` (`none` models `name_pattern = None`); a
name match whose own pattern has no group 1, or whose group 1 did not
participate, carries `group1 = none`.  The code appends
`add_entry(message, name if name else None)` and then sets
`last_start = message_match.end(1)`.  Returns the entries together with the
name match consumed at each kept step. -/
def extractLoop (hasG1 : Bool)
    (nameSearch : Option (Int → Int → Option PyMatch)) :
    List PyMatch → Int → List TranslationEntry × List (Option PyMatch)
  | [], _ => ([], [])
  | m :: rest, lastStart =>
    cond hasG1
      (let nmRes : Option PyMatch :=
        match nameSearch with
        | some search => search lastStart m.start1
        | none => none
      let name : Option String :=
        match nmRes with
        | some nm =>
          match nm.group1 with
          | some s => if s = "" then none else some s
          | none => none
        | none => none
      let next := extractLoop hasG1 nameSearch rest m.end1
      (⟨m.group1, name⟩ :: next.1, nmRes :: next.2))
      (extractLoop hasG1 nameSearch rest lastStart)

/-- `_extract_from_single_file`: run the match loop from `last_start = 0`. -/
def extract_from_single_file (hasG1 : Bool)
    (nameSearch : Option (Int → Int → Option PyMatch))
    (msgMatches : List PyMatch) : TranslationData :=
  ⟨(extractLoop hasG1 nameSearch msgMatches 0).1⟩

/-- C1 counterexample, modelling pattern `(a)|b` on content `"ab"`: the
match of `"a"` captures group 1, the match of `"b"` has group 1 defined but
not participating (`group(1)` is `None`, no `IndexError`).  The code keeps
BOTH matches — the second is appended with a null message — so the
TranslationSet has length 2 while only 1 match has a capture group 1. -/
theorem extraction_count_counterexample :
    (extract_from_single_file true none
        [⟨0, 1, 0, 1, some "a"⟩, ⟨1, 2, -1, -1, none⟩]).entries
      = [⟨some "a", none⟩, ⟨none, none⟩]
    ∧ (extract_from_single_file true none
        [⟨0, 1, 0, 1, some "a"⟩, ⟨1, 2, -1, -1, none⟩]).entries.length = 2
    ∧ ([(⟨0, 1, 0, 1, some "a"⟩ : PyMatch), ⟨1, 2, -1, -1, none⟩].filter
        (fun m => m.group1.isSome)).length = 1
    ∧ (2 : Nat) ≠ 1 := by
  refine ⟨rfl, rfl, rfl, by decide⟩

theorem extractLoop_false (nameSearch : Option (Int → Int → Option PyMatch))
    (ms : List PyMatch) :
    ∀ ls, extractLoop false nameSearch ms ls = ([], []) := by
  induction ms with
  | nil => intro ls; rfl
  | cons m rest ih =>
    intro ls
    simp [extractLoop, ih]

/-- C1 amended: when the message pattern defines a group 1, extraction keeps
EVERY match, in match order, recording exactly its group-1 value as the
message (a match whose group 1 did not participate is still counted, with a
null message), so the TranslationSet length equals the total number of
matches; when the pattern defines no group 1, every match raises
`IndexError` and is skipped, giving length 0. -/
theorem extraction_count_semantics
    (nameSearch : Option (Int → Int → Option PyMatch)) (ms : List PyMatch) :
    (∀ ls, (extractLoop true nameSearch ms ls).1.map (fun e => e.message)
        = ms.map (fun m => m.group1))
    ∧ (extract_from_single_file true nameSearch ms).entries.length = ms.length
    ∧ (extract_from_single_file false nameSearch ms).entries.length = 0 := by
  have hmap : ∀ ls, (extractLoop true nameSearch ms ls).1.map (fun e => e.message)
      = ms.map (fun m => m.group1) := by
    induction ms with
    | nil => intro ls; rfl
    | cons m rest ih =>
      intro ls
      simp [extractLoop, ih]
  refine ⟨hmap, ?_, ?_⟩
  · have := congrArg List.length (hmap 0)
    simpa [extract_from_single_file] using this
  · simp [extract_from_single_file, extractLoop_false]

/-- The lower bound of the name-search window at step `i`: the group-1 end
of the previous kept match, or the loop's initial `last_start` for the first
one. -/
def prevEnd1 (ls : Int) : List PyMatch → Nat → Int
  | _, 0 => ls
  | [], _ + 1 => ls
  | m :: rest, i + 1 => prevEnd1 m.end1 rest i

theorem prevEnd1_ge (ls : Int) (ms : List PyMatch)
    (hse : ∀ m ∈ ms, m.start1 ≤ m.end1)
    (hchain : List.Chain' (fun a b => a.end1 ≤ b.start1) ms)
    (hhead : ∀ m, ms.head? = some m → ls ≤ m.start1) :
    ∀ i, ls ≤ prevEnd1 ls ms i := by
  induction ms generalizing ls with
  | nil =>
    intro i
    cases i <;> simp [prevEnd1]
  | cons m rest ih =>
    intro i
    cases i with
    | zero => simp [prevEnd1]
    | succ j =>
      show ls ≤ prevEnd1 m.end1 rest j
      have h1 : ls ≤ m.start1 := hhead m rfl
      have h2 : m.start1 ≤ m.end1 := hse m (List.mem_cons_self _ _)
      have h3 : m.end1 ≤ prevEnd1 m.end1 rest j := by
        apply ih
        · exact fun x hx => hse x (List.mem_cons_of_mem _ hx)
        · exact (List.chain'_cons'.mp hchain).2
        · intro x hx
          cases rest with
          | nil => simp at hx
          | cons y t =>
            have hy : y = x := by simpa using hx
            subst hy
            exact (List.chain'_cons'.mp hchain).1 y rfl
      omega

theorem prior_end1_le (ms : List PyMatch)
    (hse : ∀ m ∈ ms, m.start1 ≤ m.end1)
    (hchain : List.Chain' (fun a b => a.end1 ≤ b.start1) ms) :
    ∀ (ls : Int) (i j : Nat) (mj : PyMatch),
      j < i → ms[j]? = some mj → mj.end1 ≤ prevEnd1 ls ms i := by
  induction ms with
  | nil =>
    intro ls i j mj hji hj
    simp at hj
  | cons m rest ih =>
    intro ls i j mj hji hj
    cases j with
    | zero =>
      simp only [List.getElem?_cons_zero, Option.some_inj] at hj
      subst hj
      cases i with
      | zero => omega
      | succ k =>
        show m.end1 ≤ prevEnd1 m.end1 rest k
        apply prevEnd1_ge
        · exact fun x hx => hse x (List.mem_cons_of_mem _ hx)
        · exact (List.chain'_cons'.mp hchain).2
        · intro x hx
          cases rest with
          | nil => simp at hx
          | cons y t =>
            have hy : y = x := by simpa using hx
            subst hy
            exact (List.chain'_cons'.mp hchain).1 y rfl
    | succ j' =>
      cases i with
      | zero => omega
      | succ k =>
        simp only [List.getElem?_cons_succ] at hj
        show mj.end1 ≤ prevEnd1 m.end1 rest k
        exact ih (fun x hx => hse x (List.mem_cons_of_mem _ hx))
          (List.chain'_cons'.mp hchain).2 m.end1 k j' mj
          (Nat.succ_lt_succ_iff.mp hji) hj

theorem extract_name_bounds
    (search : Int → Int → Option PyMatch)
    (hs : ∀ a b nm, search a b = some nm →
      a ≤ (nm.start0 : Int) ∧ (nm.end0 : Int) ≤ b) :
    ∀ (ms : List PyMatch), (∀ m ∈ ms, m.start1 ≤ m.end1) →
      List.Chain' (fun a b => a.end1 ≤ b.start1) ms →
      ∀ (ls : Int) (i : Nat) (nm mi : PyMatch),
        ((extractLoop true (some search) ms ls).2)[i]? = some (some nm) →
        ms[i]? = some mi →
        prevEnd1 ls ms i ≤ (nm.start0 : Int)
        ∧ (nm.end0 : Int) ≤ mi.start1 := by
  intro ms
  induction ms with
  | nil =>
    intro _ _ ls i nm mi h1 h2
    simp [extractLoop] at h1
  | cons m rest ih =>
    intro hse hchain ls i nm mi h1 h2
    rw [extractLoop] at h1
    simp only [Bool.cond_true] at h1
    cases i with
    | zero =>
      simp only [List.getElem?_cons_zero, Option.some_inj] at h1 h2
      subst h2
      exact hs ls m.start1 nm h1
    | succ j =>
      simp only [List.getElem?_cons_succ] at h1 h2
      exact ih (fun x hx => hse x (List.mem_cons_of_mem _ hx))
        (List.chain'_cons'.mp hchain).2 m.end1 j nm mi h1 h2

theorem extract_name_absent (search : Int → Int → Option PyMatch) :
    ∀ (ms : List PyMatch) (ls : Int) (i : Nat) (mi : PyMatch),
      ((extractLoop true (some search) ms ls).2)[i]? = some none →
      ms[i]? = some mi →
      ((extractLoop true (some search) ms ls).1)[i]?
        = some ⟨mi.group1, none⟩ := by
  intro ms
  induction ms with
  | nil =>
    intro ls i mi _ h2
    simp at h2
  | cons m rest ih =>
    intro ls i mi h1 h2
    rw [extractLoop] at h1 ⊢
    simp only [Bool.cond_true] at h1 ⊢
    cases i with
    | zero =>
      simp only [List.getElem?_cons_zero, Option.some_inj] at h1 h2 ⊢
      subst h2
      rw [h1]
    | succ k =>
      simp only [List.getElem?_cons_succ] at h1 h2 ⊢
      exact ih m.end1 k mi h1 h2

/-- C9 amended: with a name pattern, the search window for the match at
index `i` is bounded below by the group-1 end (`end(1)`) of the previous
match — `last_start` — and above by the group-1 start (`start(1)`) of the
current match, NOT by the full match boundaries; consequently a found name
never overlaps any prior match's group-1 span (each prior `end(1)` lies at
or before the name's start), though it may overlap a prior match's full
span; and if there is no name match, or its group 1 is missing or empty,
the record's name is absent. -/
theorem name_search_window_semantics
    (search : Int → Int → Option PyMatch)
    (hs : ∀ a b nm, search a b = some nm →
      a ≤ (nm.start0 : Int) ∧ (nm.end0 : Int) ≤ b)
    (ms : List PyMatch)
    (hse : ∀ m ∈ ms, m.start1 ≤ m.end1)
    (hchain : List.Chain' (fun a b => a.end1 ≤ b.start1) ms) :
    (∀ (i : Nat) (nm mi : PyMatch),
      ((extractLoop true (some search) ms 0).2)[i]? = some (some nm) →
      ms[i]? = some mi →
      prevEnd1 0 ms i ≤ (nm.start0 : Int)
      ∧ (nm.end0 : Int) ≤ mi.start1
      ∧ (∀ (j : Nat) (mj : PyMatch), j < i → ms[j]? = some mj →
          mj.end1 ≤ (nm.start0 : Int)))
    ∧ (∀ (i : Nat) (mi : PyMatch),
        ((extractLoop true (some search) ms 0).2)[i]? = some none →
        ms[i]? = some mi →
        ((extractLoop true (some search) ms 0).1)[i]?
          = some ⟨mi.group1, none⟩) := by
  constructor
  · intro i nm mi h1 h2
    obtain ⟨hb1, hb2⟩ := extract_name_bounds search hs ms hse hchain 0 i nm mi h1 h2
    exact ⟨hb1, hb2, fun j mj hji hj =>
      le_trans (prior_end1_le ms hse hchain 0 i j mj hji hj) hb1⟩
  · intro i mi h1 h2
    exact extract_name_absent search ms 0 i mi h1 h2

/-- Witness for the amended C9: a concrete search function and match list
satisfying the hypotheses. -/
theorem name_search_window_semantics_witness :
    (∀ (i : Nat) (nm mi : PyMatch),
      ((extractLoop true (some (fun _ _ => (none : Option PyMatch)))
          [⟨0, 3, 1, 2, some "A"⟩] 0).2)[i]? = some (some nm) →
      [(⟨0, 3, 1, 2, some "A"⟩ : PyMatch)][i]? = some mi →
      prevEnd1 0 [⟨0, 3, 1, 2, some "A"⟩] i ≤ (nm.start0 : Int)
      ∧ (nm.end0 : Int) ≤ mi.start1
      ∧ (∀ (j : Nat) (mj : PyMatch), j < i →
          [(⟨0, 3, 1, 2, some "A"⟩ : PyMatch)][j]? = some mj →
          mj.end1 ≤ (nm.start0 : Int)))
    ∧ (∀ (i : Nat) (mi : PyMatch),
        ((extractLoop true (some (fun _ _ => (none : Option PyMatch)))
            [⟨0, 3, 1, 2, some "A"⟩] 0).2)[i]? = some none →
        [(⟨0, 3, 1, 2, some "A"⟩ : PyMatch)][i]? = some mi →
        ((extractLoop true (some (fun _ _ => (none : Option PyMatch)))
            [⟨0, 3, 1, 2, some "A"⟩] 0).1)[i]?
          = some ⟨mi.group1, none⟩) :=
  name_search_window_semantics (fun _ _ => none) (fun _ _ _ h => nomatch h)
    [⟨0, 3, 1, 2, some "A"⟩] (by decide) (List.chain'_singleton _)

/-- The first message match of pattern `「(.*?)」` on content `「A」「B」`
(character indices 0..5): full span `[0,3)`, group-1 span `[1,2)`. -/
def cexMsg1 : PyMatch := ⟨0, 3, 1, 2, some "A"⟩

/-- The second message match: full span `[3,6)`, group-1 span `[4,5)`. -/
def cexMsg2 : PyMatch := ⟨3, 6, 4, 5, some "B"⟩

/-- Hand model of `(」)`.search(content, pos, endpos)` on the content
`「A」「B」`: `」` occurs at indices 2 and 5; Python clamps `pos` below by 0
and `endpos` into `[0, 6]`, and returns the leftmost occurrence inside the
window. -/
def cexNameSearch (a b : Int) : Option PyMatch :=
  let lo := max a 0
  let hi := min (if b < 0 then 0 else b) 6
  if lo ≤ 2 ∧ 3 ≤ hi then some ⟨2, 3, 2, 3, some "」"⟩
  else if lo ≤ 5 ∧ 6 ≤ hi then some ⟨5, 6, 5, 6, some "」"⟩
  else none

/-- C9 counterexample: on `「A」「B」` with message pattern `「(.*?)」` and
name pattern `(」)`, the name search for the second message runs over
`content[2:4]` — from `end(1)` of the previous match to `start(1)` of the
current one, NOT between the full match spans `[0,3)` and `[3,6)` (that
window would be `content[3:3]`, empty) — and finds the name match `[2,3)`,
which overlaps the previous message's full matched span `[0,3)`. -/
theorem name_search_overlap_counterexample :
    (extract_from_single_file true (some cexNameSearch)
        [cexMsg1, cexMsg2]).entries
      = [⟨some "A", none⟩, ⟨some "B", some "」"⟩]
    ∧ ((extractLoop true (some cexNameSearch) [cexMsg1, cexMsg2] 0).2)[1]?
      = some (some ⟨2, 3, 2, 3, some "」"⟩)
    ∧ (⟨2, 3, 2, 3, some "」"⟩ : PyMatch).start0 < cexMsg1.end0
    ∧ cexMsg1.start0 < (⟨2, 3, 2, 3, some "」"⟩ : PyMatch).end0 := by
  refine ⟨rfl, rfl, by decide, by decide⟩

/-! ## Character substitution (`sjis_handler.py`,
`SJISHandler.process_json_folder` / `_process_single_json_file`).
The filesystem is modelled as a list of `(path, content)` files; directory
deletion removes every file under the directory (the model's deletes
succeed, as `shutil.rmtree` does on a healthy filesystem). -/

/-- Is `p` a path inside directory `root`? -/
def pathInDir (root p : String) : Bool :=
  (root ++ "/").data.isPrefixOf p.data

/-- `FileOperations.delete_directory` (`shutil.rmtree`): drop every file
under `root`. -/
def delete_directory (root : String) (fs : List (String × String)) :
    List (String × String) :=
  fs.filter (fun kv => ! pathInDir root kv.1)

/-- The character scan of `_process_single_json_file`: every character that
is a key of the (filtered) table is replaced by its mapped substitute; the
replacement count counts every replaced position. -/
def substCharsGo (d : List (String × String)) : List Char → String × Nat
  | [] => ("", 0)
  | c :: rest =>
    let next := substCharsGo d rest
    match alget d (String.singleton c) with
    | some rep => (rep ++ next.1, next.2 + 1)
    | none => (String.singleton c ++ next.1, next.2)

/-- The `for json_file in json_files` loop inside the `try` of
`process_json_folder`: each readable file is substituted and written to the
mirrored path under `root`; a per-file exception (`none` input) propagates
immediately, leaving the files already written in place.  Returns the total
replacement count or the error, together with the filesystem. -/
def processFilesLoop (d : List (String × String)) (root : String) :
    List (String × Option String) → List (String × String) →
    Except Unit Nat × List (String × String)
  | [], fs => (.ok 0, fs)
  | (name, some content) :: rest, fs =>
    let res := substCharsGo d content.data
    let next := processFilesLoop d root rest
      (fs ++ [(root ++ "/" ++ name, res.1)])
    (match next.1 with
     | .ok n => .ok (res.2 + n)
     | .error e => .error e, next.2)
  | (_, none) :: _, fs => (.error (), fs)

/-- `SJISHandler.process_json_folder`: an empty (filtered) table raises
`ValueError` before the `try` block (no directory is touched); otherwise the
pre-existing `<jsonFolder>_replaced` is deleted and recreated, the files are
processed, and on any failure mid-run the whole output directory is deleted
again and a `RuntimeError` is raised. -/
def process_json_folder (d : List (String × String)) (jsonFolder : String)
    (inputs : List (String × Option String)) (fs : List (String × String)) :
    Except Unit Nat × List (String × String) :=
  if d = [] then (.error (), fs)
  else
    match processFilesLoop d (jsonFolder ++ "_replaced") inputs
        (delete_directory (jsonFolder ++ "_replaced") fs) with
    | (.ok n, fs') => (.ok n, fs')
    | (.error _, fs') =>
      (.error (), delete_directory (jsonFolder ++ "_replaced") fs')

theorem pathInDir_append (root name : String) :
    pathInDir root ((root ++ "/") ++ name) = true := by
  rw [pathInDir, str_data_append]
  exact isPrefixOf_self_append (root ++ "/").data name.data

theorem processFilesLoop_error (d : List (String × String)) (root : String) :
    ∀ (inputs : List (String × Option String)) (fs : List (String × String)),
      (∃ p ∈ inputs, p.2 = none) →
      (processFilesLoop d root inputs fs).1 = .error ()
      ∧ ∃ outs, (processFilesLoop d root inputs fs).2 = fs ++ outs
          ∧ ∀ q ∈ outs, pathInDir root q.1 = true := by
  intro inputs
  induction inputs with
  | nil =>
    intro fs hfail
    obtain ⟨p, hp, _⟩ := hfail
    simp at hp
  | cons p rest ih =>
    intro fs hfail
    obtain ⟨name, c⟩ := p
    cases c with
    | none =>
      exact ⟨rfl, [], by simp [processFilesLoop], by simp⟩
    | some content =>
      have hfail' : ∃ q ∈ rest, q.2 = none := by
        obtain ⟨q, hq, hq2⟩ := hfail
        rcases List.mem_cons.mp hq with h | h
        · rw [h] at hq2
          simp at hq2
        · exact ⟨q, h, hq2⟩
      obtain ⟨herr, outs, hfs, houts⟩ := ih
        (fs ++ [(root ++ "/" ++ name, (substCharsGo d content.data).1)]) hfail'
      constructor
      · rw [processFilesLoop]
        simp only [herr]
      · refine ⟨(root ++ "/" ++ name, (substCharsGo d content.data).1) :: outs,
          ?_, ?_⟩
        · rw [processFilesLoop]
          simp only []
          rw [hfs, List.append_assoc]
          rfl
        · intro q hq
          rcases List.mem_cons.mp hq with h | h
          · rw [h]
            exact pathInDir_append root name
          · exact houts q h

theorem delete_directory_append (root : String) (a b : List (String × String)) :
    delete_directory root (a ++ b)
      = delete_directory root a ++ delete_directory root b := by
  simp [delete_directory, List.filter_append]

theorem delete_directory_idem (root : String) (fs : List (String × String)) :
    delete_directory root (delete_directory root fs)
      = delete_directory root fs := by
  induction fs with
  | nil => rfl
  | cons kv rest ih =>
    by_cases h : pathInDir root kv.1 <;>
      simp [delete_directory, h] at ih ⊢

theorem delete_directory_all_inside (root : String)
    (outs : List (String × String)) (h : ∀ q ∈ outs, pathInDir root q.1 = true) :
    delete_directory root outs = [] := by
  induction outs with
  | nil => rfl
  | cons kv rest ih =>
    have hk := h kv (List.mem_cons_self _ _)
    have ht := ih (fun q hq => h q (List.mem_cons_of_mem _ hq))
    simp only [delete_directory] at ht
    simp [delete_directory, List.filter_cons, hk, ht]

/-- C8: with a non-empty substitution table, if any per-file failure occurs
mid-run, `process_json_folder` raises a structured error and the final
filesystem equals the original with everything under `<input>_replaced`
removed: every partially-created output file (and any stale pre-existing
output) is deleted, and nothing outside the output directory is touched —
the operation is atomic at the directory granularity. -/
theorem substitution_rollback (d : List (String × String)) (jsonFolder : String)
    (inputs : List (String × Option String)) (fs : List (String × String))
    (hd : d ≠ []) (hfail : ∃ p ∈ inputs, p.2 = none) :
    (process_json_folder d jsonFolder inputs fs).1 = .error ()
    ∧ (process_json_folder d jsonFolder inputs fs).2
        = delete_directory (jsonFolder ++ "_replaced") fs := by
  obtain ⟨herr, outs, hfs, houts⟩ := processFilesLoop_error d
    (jsonFolder ++ "_replaced") inputs
    (delete_directory (jsonFolder ++ "_replaced") fs) hfail
  rw [process_json_folder, if_neg hd]
  rw [show (processFilesLoop d (jsonFolder ++ "_replaced") inputs
      (delete_directory (jsonFolder ++ "_replaced") fs))
    = (.error (), delete_directory (jsonFolder ++ "_replaced") fs ++ outs) by
      rw [← hfs, ← herr]]
  refine ⟨rfl, ?_⟩
  show delete_directory _ (delete_directory _ fs ++ outs) = _
  rw [delete_directory_append, delete_directory_idem,
    delete_directory_all_inside _ outs houts, List.append_nil]

/-- Witness for C8 at a concrete run: one readable file, one failing file, a
stale output directory and an unrelated file. -/
theorem substitution_rollback_witness :
    (process_json_folder [("h", "k")] "j"
        [("a.json", some "xhx"), ("b.json", none)]
        [("j/a.json", "xhx"), ("other", "o"), ("j_replaced/stale", "s")]).1
      = .error ()
    ∧ (process_json_folder [("h", "k")] "j"
        [("a.json", some "xhx"), ("b.json", none)]
        [("j/a.json", "xhx"), ("other", "o"), ("j_replaced/stale", "s")]).2
      = delete_directory ("j" ++ "_replaced")
          [("j/a.json", "xhx"), ("other", "o"), ("j_replaced/stale", "s")] :=
  substitution_rollback [("h", "k")] "j"
    [("a.json", some "xhx"), ("b.json", none)]
    [("j/a.json", "xhx"), ("other", "o"), ("j_replaced/stale", "s")]
    (by decide) (by decide)

end GalDump
